import Mathlib

/-!
Shallow embedding of the semantic-analyzer core of `analyze_new.py`
(the pycparser-based class `SemanticErrorChecker`, the external
`clang_analysis` pass, `preprocess_code`, and the `analyze_code` driver).

The internal checker keeps two flat Python dicts,
`defined_vars : {var_name: used_status}` and
`function_signatures : {function_name: arg_count}`, plus a growing
`errors` list of message strings.  Python dicts preserve insertion
order and re-assignment of an existing key keeps its position, so both
dicts are modelled as association lists with an in-place update.

The checker is a `c_ast.NodeVisitor`: `visit` dispatches on the node
class (`visit_Decl`, `visit_ID`, `visit_FuncCall` are overridden, all
other classes fall through to `generic_visit`), and each override ends
with `self.generic_visit(node)`, which recursively visits every child
of the node.  The `Node` type below mirrors the pycparser node classes
that can occur, with each constructor carrying exactly the children
that `generic_visit` would traverse, in traversal order.
-/

namespace Analyzer

/-- The diagnostics the Python code appends to `self.errors`.  The code
stores them as strings; the constructors are in bijection with the four
f-string shapes used, and `Diag.render` reproduces the exact strings. -/
inductive Diag where
  | undeclared (name : String)
  | arity (name : String) (actual expected : Nat)
  | unused (name : String)
  | parseFailure (msg : String)
  deriving DecidableEq, Repr

/-- The exact message string the Python code builds for each diagnostic
(`\x27` is the ASCII apostrophe). -/
def Diag.render : Diag → String
  | .undeclared n => "Error: Variable \x27" ++ n ++ "\x27 used before declaration."
  | .arity n a e =>
      "Error: Function \x27" ++ n ++ "\x27 called with " ++ toString a ++
        " arguments (expected " ++ toString e ++ ")."
  | .unused n => "Warning: Variable \x27" ++ n ++ "\x27 defined but never used."
  | .parseFailure m => "Error in parsing code with pycparser: " ++ m

/-- True exactly for `ArityMismatch` diagnostics. -/
def Diag.isArity : Diag → Bool
  | .arity _ _ _ => true
  | _ => false

/-- True exactly for `UndeclaredVariable` diagnostics. -/
def Diag.isUndeclared : Diag → Bool
  | .undeclared _ => true
  | _ => false

/-- True exactly for `UnusedVariable` warnings. -/
def Diag.isUnused : Diag → Bool
  | .unused _ => true
  | _ => false

/-- True exactly for the `ParseFailure` diagnostic. -/
def Diag.isParseFailure : Diag → Bool
  | .parseFailure _ => true
  | _ => false

/-- pycparser AST nodes, restricted to the classes relevant to the
checker.  Each constructor lists the children `generic_visit` iterates,
in order.  A `Decl`'s `ty` is its `type` child (a `TypeDecl` for plain
variables, a `FuncDecl` for functions); a `FuncDecl`'s `args` is its
optional `ParamList`, represented directly by the parameter list; a
`FuncCall`'s `args` is its optional `ExprList`, represented by the
expression list. -/
inductive Node where
  | fileAST (exts : List Node)
  | funcDef (decl : Node) (body : Node)
  | decl (name : String) (ty : Node) (declInit : Option Node)
  | typeDecl
  | funcDecl (args : Option (List Node))
  | typename
  | id (name : String)
  | funcCall (callee : Node) (args : Option (List Node))
  | compound (items : List Node)
  | assignment (lvalue rvalue : Node)
  | binaryOp (left right : Node)
  | constant
  | ret (val : Option Node)

/-- The mutable state of a `SemanticErrorChecker` instance. -/
structure Checker where
  defined_vars : List (String × Bool)
  function_signatures : List (String × Nat)
  errors : List Diag
  deriving DecidableEq, Repr

/-- Python dict assignment `d[k] = v`: overwrite in place if the key is
present (insertion position kept), otherwise append at the end. -/
def dictSet : List (String × α) → String → α → List (String × α)
  | [], k, v => [(k, v)]
  | p :: d, k, v => if p.1 = k then (k, v) :: d else p :: dictSet d k v

/-- Python dict lookup `d[k]` / `d.get(k)`: first binding of the key. -/
def dictGet? : List (String × α) → String → Option α
  | [], _ => none
  | p :: d, k => if p.1 = k then some p.2 else dictGet? d k

/-- Python membership test `k in d`. -/
def dictContains (d : List (String × α)) (k : String) : Bool :=
  (dictGet? d k).isSome

/-- `len(node.type.args.params) if node.type.args else 0` in
`visit_Decl`. -/
def paramCount : Option (List Node) → Nat
  | none => 0
  | some ps => ps.length

/-- `len(node.args.exprs) if node.args and node.args.exprs else 0` in
`visit_FuncCall` (an empty `exprs` list is falsy and also yields 0). -/
def actualArgs : Option (List Node) → Nat
  | none => 0
  | some es => es.length

/-- The state update performed by `visit_Decl` before its
`generic_visit`: a `TypeDecl` declarator records the name in
`defined_vars` with used-status `False`; a `FuncDecl` declarator
records the parameter count in `function_signatures`; any other
declarator type changes nothing. -/
def visit_Decl_step (s : Checker) (name : String) (ty : Node) : Checker :=
  match ty with
  | .typeDecl => { s with defined_vars := dictSet s.defined_vars name false }
  | .funcDecl args =>
      { s with function_signatures :=
          dictSet s.function_signatures name (paramCount args) }
  | _ => s

/-- The state update performed by `visit_ID`: a name present in
`defined_vars` is marked used, otherwise an `UndeclaredVariable`
error is appended. -/
def visit_ID_step (s : Checker) (name : String) : Checker :=
  if dictContains s.defined_vars name then
    { s with defined_vars := dictSet s.defined_vars name true }
  else
    { s with errors := s.errors ++ [.undeclared name] }

/-- The state update performed by `visit_FuncCall` before its
`generic_visit`: when the callee is an `ID` whose name is in
`function_signatures` and the argument count differs from the stored
parameter count, an `ArityMismatch` error is appended. -/
def visit_FuncCall_step (s : Checker) (callee : Node)
    (args : Option (List Node)) : Checker :=
  match callee with
  | .id fname =>
      match dictGet? s.function_signatures fname with
      | some expected =>
          let actual := actualArgs args
          if actual ≠ expected then
            { s with errors := s.errors ++ [.arity fname actual expected] }
          else s
      | none => s
  | _ => s

mutual

/-- `NodeVisitor.visit`: dispatch on the node class, running the
overridden handler when one exists and then (as each handler does)
`generic_visit` over the children in order. -/
def visit (s : Checker) : Node → Checker
  | .fileAST exts => visitList s exts
  | .funcDef d b => visit (visit s d) b
  | .decl name ty declInit => visitOpt (visit (visit_Decl_step s name ty) ty) declInit
  | .typeDecl => s
  | .funcDecl args => visitOptList s args
  | .typename => s
  | .id name => visit_ID_step s name
  | .funcCall callee args =>
      visitOptList (visit (visit_FuncCall_step s callee args) callee) args
  | .compound items => visitList s items
  | .assignment l r => visit (visit s l) r
  | .binaryOp l r => visit (visit s l) r
  | .constant => s
  | .ret v => visitOpt s v

/-- Visit an optional child (absent children are skipped). -/
def visitOpt (s : Checker) : Option Node → Checker
  | none => s
  | some n => visit s n

/-- Visit an optional list-valued child (`ParamList` / `ExprList`). -/
def visitOptList (s : Checker) : Option (List Node) → Checker
  | none => s
  | some l => visitList s l

/-- Visit a list of children left to right. -/
def visitList (s : Checker) : List Node → Checker
  | [] => s
  | n :: l => visitList (visit s n) l

end

/-- `check_unused_vars`: append a `UnusedVariable` warning for every
entry of `defined_vars` whose used-status is still `False`, in dict
(insertion) order. -/
def check_unused_vars (s : Checker) : Checker :=
  { s with errors :=
      s.errors ++ (s.defined_vars.filter (fun p => !p.2)).map (fun p => .unused p.1) }

/-- A fresh `SemanticErrorChecker()`. -/
def initChecker : Checker := ⟨[], [], []⟩

/-- The internal pass applied to an already-built AST: traverse, then
run the unused-variable sweep, and return the error list. -/
def runChecker (ast : Node) : List Diag :=
  (check_unused_vars (visit initChecker ast)).errors

/-- `check_code`: parse the preprocessed text, and on success traverse
the AST and run `check_unused_vars`; if parsing raises, return the
single parse-failure message (the exception aborts the whole `try`
block, so no other diagnostic is produced in that case).  Parsing
itself is the external `pycparser` library, passed in as a function. -/
def check_code (parse : String → Except String Node) (code : String) : List Diag :=
  match parse code with
  | .ok ast => runChecker ast
  | .error e => [.parseFailure e]

/-- Outcome of one `analyze_code` run.  `preprocess_code` catches its
subprocess error, prints a note and returns `None`, upon which
`analyze_code` prints a failure note and returns before either pass
runs.  `clang_analysis` has no exception handling in `analyze_new.py`,
so when the clang invocation raises, the exception propagates out of
`analyze_code` after the internal diagnostics were already printed:
the run aborts (`crashed`) carrying those printed diagnostics. -/
inductive RunOutcome where
  | preprocessingFailed
  | crashed (internalDiags : List Diag) (exc : String)
  | completed (internalDiags : List Diag) (externalDiags : List String)
  deriving DecidableEq, Repr

/-- True exactly for runs that return normally from `analyze_code`. -/
def RunOutcome.isCompleted : RunOutcome → Bool
  | .completed _ _ => true
  | _ => false

/-- `analyze_code`: preprocess (early return on failure), then the
pycparser pass on the preprocessed text, then the clang pass on the
original file.  The three collaborators (`preprocess_code`'s
subprocess, `pycparser`'s parser, the clang invocation) are passed in
as functions; an exceptional clang invocation is an `Except.error`. -/
def analyze_code (pre : String → Option String)
    (parse : String → Except String Node)
    (ext : String → Except String (List String)) (c_file : String) : RunOutcome :=
  match pre c_file with
  | none => .preprocessingFailed
  | some code =>
      let internal := check_code parse code
      match ext c_file with
      | .error e => .crashed internal e
      | .ok ds => .completed internal ds

/-- The diagnostic lines `analyze_code` prints, in print order: the
internal pass's messages first (under "pycparser Analysis:"), then the
external pass's messages (under "Clang Analysis:").  On a crash only
the lines printed before the exception exist. -/
def report : RunOutcome → List String
  | .preprocessingFailed => []
  | .crashed ds _ => ds.map Diag.render
  | .completed ds es => ds.map Diag.render ++ es

/-- The merge logic of `analyze_code`, element type left abstract: the
final report is the internal diagnostic list followed by the external
diagnostic list, each kept in its own insertion order; no field of a
diagnostic is inspected. -/
def mergeReports (internal external : List α) : List α :=
  internal ++ external

/-- Modelled from the spec (section 3 data model and section 4.5
ordering): a diagnostic as the spec describes it, carrying a source
location (file, line, column), an origin, and its insertion index.
The code's diagnostics carry no such fields; this type exists only to
state the spec's ordering requirement for comparison. -/
structure SpecDiag where
  file : String
  line : Nat
  col : Nat
  isInternal : Bool
  insertionIdx : Nat
  deriving DecidableEq, Repr

/-- Modelled from the spec: origin rank, internal before external. -/
def SpecDiag.originRank (d : SpecDiag) : Nat :=
  if d.isInternal then 0 else 1

/-- Modelled from the spec: the section 4.5 ordering key, lexicographic
— primary source location (file, then line, then column ascending),
secondary origin (internal before external), tertiary insertion
order. -/
def specKeyLe (a b : SpecDiag) : Prop :=
  a.file < b.file ∨ (a.file = b.file ∧
    (a.line < b.line ∨ (a.line = b.line ∧
      (a.col < b.col ∨ (a.col = b.col ∧
        (a.originRank < b.originRank ∨ (a.originRank = b.originRank ∧
          a.insertionIdx ≤ b.insertionIdx)))))))

/-- Modelled from the spec: a report is correctly ordered when each
adjacent pair respects the section 4.5 key. -/
def specOrderedReport (out : List SpecDiag) : Prop :=
  out.Chain' specKeyLe

/-! ### Association-list lemmas for the Python dict model -/

theorem dictGet?_dictSet_self (d : List (String × α)) (k : String) (v : α) :
    dictGet? (dictSet d k v) k = some v := by
  induction d with
  | nil => simp [dictSet, dictGet?]
  | cons p d ih =>
      by_cases h : p.1 = k
      · simp [dictSet, h, dictGet?]
      · simp [dictSet, h, dictGet?, ih]

theorem dictGet?_dictSet_ne (d : List (String × α)) {k k' : String} (v : α)
    (h : k' ≠ k) : dictGet? (dictSet d k' v) k = dictGet? d k := by
  induction d with
  | nil => simp [dictSet, dictGet?, h]
  | cons p d ih =>
      by_cases hp : p.1 = k'
      · subst hp
        simp [dictSet, dictGet?, h, fun hh : p.1 = k => h (hh ▸ rfl)]
      · simp [dictSet, hp, dictGet?, ih]

theorem mem_of_dictGet? {d : List (String × α)} {k : String} {v : α}
    (h : dictGet? d k = some v) : (k, v) ∈ d := by
  induction d with
  | nil => simp [dictGet?] at h
  | cons p d ih =>
      obtain ⟨a, b⟩ := p
      by_cases hp : a = k
      · subst hp
        simp only [dictGet?, if_pos] at h
        obtain rfl : b = v := by simpa using h
        exact List.mem_cons_self _ _
      · rw [show dictGet? ((a, b) :: d) k = dictGet? d k from by simp [dictGet?, hp]] at h
        exact List.mem_cons_of_mem _ (ih h)

/-! ### Traversal error monotonicity

Every handler only appends to `self.errors`, and the appended
diagnostics during traversal are only `UndeclaredVariable` and
`ArityMismatch` — `UnusedVariable` warnings come solely from the final
`check_unused_vars` sweep and `ParseFailure` only from the `except`
branch of `check_code`. -/

/-- All diagnostics in the list are traversal errors. -/
def OnlyTraversalErrs (t : List Diag) : Prop :=
  ∀ d ∈ t, d.isUndeclared = true ∨ d.isArity = true

/-- `s'` extends `s` by appending traversal errors only. -/
def ErrExtends (s s' : Checker) : Prop :=
  ∃ t, s'.errors = s.errors ++ t ∧ OnlyTraversalErrs t

theorem ErrExtends.self (s : Checker) : ErrExtends s s :=
  ⟨[], by simp, fun d hd => absurd hd (List.not_mem_nil d)⟩

theorem ErrExtends.trans {a b c : Checker} (h1 : ErrExtends a b)
    (h2 : ErrExtends b c) : ErrExtends a c := by
  obtain ⟨t1, e1, k1⟩ := h1
  obtain ⟨t2, e2, k2⟩ := h2
  refine ⟨t1 ++ t2, by simp [e2, e1], fun d hd => ?_⟩
  rcases List.mem_append.1 hd with h | h
  · exact k1 d h
  · exact k2 d h

theorem visit_Decl_step_errors (s : Checker) (name : String) (ty : Node) :
    (visit_Decl_step s name ty).errors = s.errors := by
  cases ty <;> rfl

theorem visit_FuncCall_step_vars (s : Checker) (callee : Node)
    (args : Option (List Node)) :
    (visit_FuncCall_step s callee args).defined_vars = s.defined_vars := by
  cases callee <;> try rfl
  case id fname =>
    simp only [visit_FuncCall_step]
    cases dictGet? s.function_signatures fname with
    | none => rfl
    | some expected =>
        by_cases h : actualArgs args = expected <;> simp [h]

theorem errExtends_Decl_step (s : Checker) (name : String) (ty : Node) :
    ErrExtends s (visit_Decl_step s name ty) :=
  ⟨[], by simp [visit_Decl_step_errors], fun d hd => absurd hd (List.not_mem_nil d)⟩

theorem errExtends_ID_step (s : Checker) (name : String) :
    ErrExtends s (visit_ID_step s name) := by
  unfold visit_ID_step
  cases h : dictContains s.defined_vars name
  · simp only [Bool.false_eq_true, if_false]
    refine ⟨[Diag.undeclared name], rfl, fun d hd => ?_⟩
    simp only [List.mem_singleton] at hd
    subst hd
    exact Or.inl rfl
  · simp only [if_true]
    exact ⟨[], by simp, fun d hd => absurd hd (List.not_mem_nil d)⟩

theorem errExtends_FuncCall_step (s : Checker) (callee : Node)
    (args : Option (List Node)) : ErrExtends s (visit_FuncCall_step s callee args) := by
  have hnil : OnlyTraversalErrs [] := fun d hd => absurd hd (List.not_mem_nil d)
  cases callee <;>
    try exact ErrExtends.self s
  case id fname =>
    cases hg : dictGet? s.function_signatures fname with
    | none => exact ⟨[], by simp [visit_FuncCall_step, hg], hnil⟩
    | some expected =>
        by_cases h : actualArgs args = expected
        · exact ⟨[], by simp [visit_FuncCall_step, hg, h], hnil⟩
        · refine ⟨[Diag.arity fname (actualArgs args) expected], ?_, fun d hd => ?_⟩
          · simp [visit_FuncCall_step, hg, h]
          · simp only [List.mem_singleton] at hd
            subst hd
            exact Or.inr rfl

mutual

theorem visit_errExtends : ∀ (n : Node) (s : Checker), ErrExtends s (visit s n)
  | .fileAST exts, s => by
      simp only [visit]
      exact visitList_errExtends exts s
  | .funcDef d b, s => by
      simp only [visit]
      exact (visit_errExtends d s).trans (visit_errExtends b _)
  | .decl name ty declInit, s => by
      simp only [visit]
      exact ((errExtends_Decl_step s name ty).trans (visit_errExtends ty _)).trans
        (visitOpt_errExtends declInit _)
  | .typeDecl, s => by simp only [visit]; exact .self s
  | .funcDecl args, s => by
      simp only [visit]
      exact visitOptList_errExtends args s
  | .typename, s => by simp only [visit]; exact .self s
  | .id name, s => by
      simp only [visit]
      exact errExtends_ID_step s name
  | .funcCall callee args, s => by
      simp only [visit]
      exact ((errExtends_FuncCall_step s callee args).trans
        (visit_errExtends callee _)).trans (visitOptList_errExtends args _)
  | .compound items, s => by
      simp only [visit]
      exact visitList_errExtends items s
  | .assignment l r, s => by
      simp only [visit]
      exact (visit_errExtends l s).trans (visit_errExtends r _)
  | .binaryOp l r, s => by
      simp only [visit]
      exact (visit_errExtends l s).trans (visit_errExtends r _)
  | .constant, s => by simp only [visit]; exact .self s
  | .ret v, s => by
      simp only [visit]
      exact visitOpt_errExtends v s

theorem visitOpt_errExtends : ∀ (o : Option Node) (s : Checker), ErrExtends s (visitOpt s o)
  | none, s => by simp only [visitOpt]; exact .self s
  | some n, s => by
      simp only [visitOpt]
      exact visit_errExtends n s

theorem visitOptList_errExtends :
    ∀ (ol : Option (List Node)) (s : Checker), ErrExtends s (visitOptList s ol)
  | none, s => by simp only [visitOptList]; exact .self s
  | some l, s => by
      simp only [visitOptList]
      exact visitList_errExtends l s

theorem visitList_errExtends : ∀ (l : List Node) (s : Checker), ErrExtends s (visitList s l)
  | [], s => by simp only [visitList]; exact .self s
  | n :: l, s => by
      simp only [visitList]
      exact (visit_errExtends n s).trans (visitList_errExtends l _)

end

/-! ### Characterisation of the `UnusedVariable` sweep -/

theorem check_unused_vars_errors (s : Checker) :
    (check_unused_vars s).errors =
      s.errors ++ (s.defined_vars.filter (fun p => !p.2)).map (fun p => .unused p.1) := rfl

/-- A name is reported unused by the internal pass exactly when the
final `defined_vars` dict carries it with used-status `False`; the
traversal itself never produces an `UnusedVariable`. -/
theorem unused_mem_iff (ast : Node) (n : String) :
    Diag.unused n ∈ runChecker ast ↔
      (n, false) ∈ (visit initChecker ast).defined_vars := by
  unfold runChecker
  obtain ⟨t, et, kt⟩ := visit_errExtends ast initChecker
  rw [check_unused_vars_errors]
  constructor
  · intro h
    rcases List.mem_append.1 h with h | h
    · rw [et] at h
      simp only [initChecker, List.nil_append] at h
      rcases kt _ h with hk | hk <;> simp [Diag.isUndeclared, Diag.isArity] at hk
    · rcases List.mem_map.1 h with ⟨p, hp, he⟩
      obtain ⟨a, b⟩ := p
      obtain ⟨hmem, hflag⟩ := List.mem_filter.1 hp
      obtain rfl : a = n := by simpa using he
      obtain rfl : b = false := by simpa using hflag
      exact hmem
  · intro h
    refine List.mem_append.2 (Or.inr (List.mem_map.2 ⟨(n, false), ?_, rfl⟩))
    exact List.mem_filter.2 ⟨h, by simp⟩

/-! ### Preservation of a dead used-status flag

Needed for the redeclaration behaviour: `visit_Decl` unconditionally
resets `defined_vars[name] = False`, and only a `visit_ID` on the same
name can set it back, so a subtree containing no `ID` node of the name
keeps the flag `False`. -/

theorem visitList_append (s : Checker) (a b : List Node) :
    visitList s (a ++ b) = visitList (visitList s a) b := by
  induction a generalizing s with
  | nil => simp [visitList]
  | cons n l ih => simp [visitList, ih]

mutual

/-- Whether an `ID` node with the given name occurs in the subtree. -/
def mentionsID (x : String) : Node → Bool
  | .fileAST exts => mentionsIDList x exts
  | .funcDef d b => mentionsID x d || mentionsID x b
  | .decl _ ty declInit => mentionsID x ty || mentionsIDOpt x declInit
  | .typeDecl => false
  | .funcDecl args => mentionsIDOptList x args
  | .typename => false
  | .id name => name == x
  | .funcCall callee args => mentionsID x callee || mentionsIDOptList x args
  | .compound items => mentionsIDList x items
  | .assignment l r => mentionsID x l || mentionsID x r
  | .binaryOp l r => mentionsID x l || mentionsID x r
  | .constant => false
  | .ret v => mentionsIDOpt x v

/-- `mentionsID` on an optional child. -/
def mentionsIDOpt (x : String) : Option Node → Bool
  | none => false
  | some n => mentionsID x n

/-- `mentionsID` on an optional list-valued child. -/
def mentionsIDOptList (x : String) : Option (List Node) → Bool
  | none => false
  | some l => mentionsIDList x l

/-- `mentionsID` on a list of children. -/
def mentionsIDList (x : String) : List Node → Bool
  | [] => false
  | n :: l => mentionsID x n || mentionsIDList x l

end

theorem Decl_step_keepsFalse (s : Checker) (name x : String) (ty : Node)
    (h : dictGet? s.defined_vars x = some false) :
    dictGet? (visit_Decl_step s name ty).defined_vars x = some false := by
  cases ty <;> try exact h
  case typeDecl =>
    simp only [visit_Decl_step]
    by_cases hx : name = x
    · subst hx
      exact dictGet?_dictSet_self ..
    · rw [dictGet?_dictSet_ne _ _ hx]
      exact h

theorem ID_step_keepsFalse (s : Checker) (name x : String) (hne : name ≠ x)
    (h : dictGet? s.defined_vars x = some false) :
    dictGet? (visit_ID_step s name).defined_vars x = some false := by
  unfold visit_ID_step
  cases hc : dictContains s.defined_vars name
  · simpa using h
  · simp only [if_true]
    rw [dictGet?_dictSet_ne _ _ hne]
    exact h

mutual

theorem visit_keepsFalse : ∀ (n : Node) (s : Checker) {x : String},
    mentionsID x n = false → dictGet? s.defined_vars x = some false →
    dictGet? (visit s n).defined_vars x = some false
  | .fileAST exts, s, x, hm, h => by
      simp only [visit]
      exact visitList_keepsFalse exts s (by simpa [mentionsID] using hm) h
  | .funcDef d b, s, x, hm, h => by
      simp only [visit]
      simp only [mentionsID, Bool.or_eq_false_iff] at hm
      exact visit_keepsFalse b _ hm.2 (visit_keepsFalse d s hm.1 h)
  | .decl name ty declInit, s, x, hm, h => by
      simp only [visit]
      simp only [mentionsID, Bool.or_eq_false_iff] at hm
      exact visitOpt_keepsFalse declInit _ hm.2
        (visit_keepsFalse ty _ hm.1 (Decl_step_keepsFalse s name x ty h))
  | .typeDecl, s, x, hm, h => by simpa [visit] using h
  | .funcDecl args, s, x, hm, h => by
      simp only [visit]
      exact visitOptList_keepsFalse args s (by simpa [mentionsID] using hm) h
  | .typename, s, x, hm, h => by simpa [visit] using h
  | .id name, s, x, hm, h => by
      simp only [visit]
      simp only [mentionsID, beq_eq_false_iff_ne, ne_eq] at hm
      exact ID_step_keepsFalse s name x hm h
  | .funcCall callee args, s, x, hm, h => by
      simp only [visit]
      simp only [mentionsID, Bool.or_eq_false_iff] at hm
      refine visitOptList_keepsFalse args _ hm.2 (visit_keepsFalse callee _ hm.1 ?_)
      rw [visit_FuncCall_step_vars]
      exact h
  | .compound items, s, x, hm, h => by
      simp only [visit]
      exact visitList_keepsFalse items s (by simpa [mentionsID] using hm) h
  | .assignment l r, s, x, hm, h => by
      simp only [visit]
      simp only [mentionsID, Bool.or_eq_false_iff] at hm
      exact visit_keepsFalse r _ hm.2 (visit_keepsFalse l s hm.1 h)
  | .binaryOp l r, s, x, hm, h => by
      simp only [visit]
      simp only [mentionsID, Bool.or_eq_false_iff] at hm
      exact visit_keepsFalse r _ hm.2 (visit_keepsFalse l s hm.1 h)
  | .constant, s, x, hm, h => by simpa [visit] using h
  | .ret v, s, x, hm, h => by
      simp only [visit]
      exact visitOpt_keepsFalse v s (by simpa [mentionsID] using hm) h

theorem visitOpt_keepsFalse : ∀ (o : Option Node) (s : Checker) {x : String},
    mentionsIDOpt x o = false → dictGet? s.defined_vars x = some false →
    dictGet? (visitOpt s o).defined_vars x = some false
  | none, s, x, _, h => by simpa [visitOpt] using h
  | some n, s, x, hm, h => by
      simp only [visitOpt]
      exact visit_keepsFalse n s (by simpa [mentionsIDOpt] using hm) h

theorem visitOptList_keepsFalse : ∀ (ol : Option (List Node)) (s : Checker) {x : String},
    mentionsIDOptList x ol = false → dictGet? s.defined_vars x = some false →
    dictGet? (visitOptList s ol).defined_vars x = some false
  | none, s, x, _, h => by simpa [visitOptList] using h
  | some l, s, x, hm, h => by
      simp only [visitOptList]
      exact visitList_keepsFalse l s (by simpa [mentionsIDOptList] using hm) h

theorem visitList_keepsFalse : ∀ (l : List Node) (s : Checker) {x : String},
    mentionsIDList x l = false → dictGet? s.defined_vars x = some false →
    dictGet? (visitList s l).defined_vars x = some false
  | [], s, x, _, h => by simpa [visitList] using h
  | n :: l, s, x, hm, h => by
      simp only [visitList]
      simp only [mentionsIDList, Bool.or_eq_false_iff] at hm
      exact visitList_keepsFalse l _ hm.2 (visit_keepsFalse n s hm.1 h)

end

/-- `visit_Decl` on a plain variable declarator resets the used-status
of the declared name to `False`, whatever it was before. -/
theorem redeclaration_resets (s : Checker) (x : String) :
    dictGet? (visit s (.decl x .typeDecl none)).defined_vars x = some false := by
  simp only [visit, visitOpt, visit_Decl_step]
  exact dictGet?_dictSet_self ..

/-! ### Concrete programs and collaborators used by the claims -/

/-- `void f() { int x; x = 1; } void g() { x = 2; }` — `x` is declared
inside `f`'s body and also used inside the sibling function `g`. -/
def progC1 : Node :=
  .fileAST [
    .funcDef (.decl "f" (.funcDecl none) none)
      (.compound [.decl "x" .typeDecl none, .assignment (.id "x") .constant]),
    .funcDef (.decl "g" (.funcDecl none) none)
      (.compound [.assignment (.id "x") .constant])]

/-- `void g() { h(); }` — a call whose callee `h` is never declared. -/
def progC2 : Node :=
  .fileAST [
    .funcDef (.decl "g" (.funcDecl none) none)
      (.compound [.funcCall (.id "h") none])]

/-- `void f(int a) { }` — a function whose parameter `a` is unused. -/
def progC3 : Node :=
  .fileAST [
    .funcDef (.decl "f" (.funcDecl (some [.decl "a" .typeDecl none])) none)
      (.compound [])]

/-- Scenario B of the spec: `void f(int a) { } void g(void) { f(1, 2); }`. -/
def progB : Node :=
  .fileAST [
    .funcDef (.decl "f" (.funcDecl (some [.decl "a" .typeDecl none])) none)
      (.compound []),
    .funcDef (.decl "g" (.funcDecl (some [.typename])) none)
      (.compound [.funcCall (.id "f") (some [.constant, .constant])])]

/-- A parser that always succeeds with `progB`. -/
def parseB : String → Except String Node := fun _ => .ok progB

/-- A parser that always raises (a structurally unparseable source). -/
def parseFail : String → Except String Node := fun _ => .error "before: \x7d"

/-- A preprocessing collaborator that succeeds with `int x;`. -/
def pre0 : String → Option String := fun _ => some "int x;"

/-- A preprocessing collaborator whose subprocess fails. -/
def preFail : String → Option String := fun _ => none

/-- A parser producing the AST of `int x;`. -/
def parse0 : String → Except String Node := fun _ => .ok (.fileAST [.decl "x" .typeDecl none])

/-- A clang invocation that raises (e.g. the hard-coded
`C:/Program Files/LLVM/bin/libclang.dll` path does not exist). -/
def extFail : String → Except String (List String) := fun _ => .error "libclang load failed"

/-- A clang invocation that returns one diagnostic line. -/
def extOk : String → Except String (List String) :=
  fun _ => .ok ["a.c:1:1: UNDEFINED_VARIABLE"]

/-- A located internal diagnostic (spec data model) at line 5. -/
def intLoc5 : SpecDiag := ⟨"a.c", 5, 1, true, 0⟩

/-- A located external diagnostic (spec data model) at line 1. -/
def extLoc1 : SpecDiag := ⟨"a.c", 1, 1, false, 0⟩

/-! ### The claims -/

/-- C1 (code evaluation at the failing input): the checker keeps one
flat `defined_vars` dict for the whole file, so `x`, declared inside
the body of `f`, is still resolvable inside the sibling function `g`
after `f`'s body has closed: the run emits no `UndeclaredVariable` for
the use of `x` in `g` (the claimed scope-visibility invariant demands
that this use not resolve). -/
theorem flat_table_resolves_across_scopes :
    runChecker progC1 = [] ∧ Diag.undeclared "x" ∉ runChecker progC1 :=
  ⟨rfl, by decide⟩

/-- C2 (code evaluation at the failing input): for a call `h()` whose
callee never resolves, `visit_FuncCall` itself emits nothing, but its
trailing `generic_visit` descends into the callee `ID` node, and
`visit_ID` emits `UndeclaredVariable` for `h` — contradicting the
claim that unresolved call targets produce no `UndeclaredVariable`
and are reported exclusively through arity logic. -/
theorem callee_gets_undeclared_error :
    runChecker progC2 = [Diag.undeclared "h"] ∧
      Diag.undeclared "h" ∈ runChecker progC2 :=
  ⟨rfl, by decide⟩

/-- C3 (counterexample): the parameter `a` of `void f(int a) { }` is
declared through `visit_Decl` like any variable and, being never
referenced, is reported `UnusedVariable` — the claim's exclusion of
function parameters does not hold in the code. -/
theorem unused_param_reported :
    runChecker progC3 = [Diag.unused "a"] ∧ Diag.unused "a" ∈ runChecker progC3 :=
  ⟨rfl, by decide⟩

/-- C3 (amended): after the full traversal, a name receives an
`UnusedVariable` warning exactly when the final `defined_vars` dict
carries it with used-status `False` — function parameters included,
since parameter `Decl`s enter `defined_vars` like any variable; a
`FuncDecl` declarator, on the other hand, touches only
`function_signatures`, so a function's own declared name is never
tracked in `defined_vars` and hence never reported unused. -/
theorem unused_report_iff_flag_false :
    (∀ (ast : Node) (n : String),
        Diag.unused n ∈ runChecker ast ↔
          (n, false) ∈ (visit initChecker ast).defined_vars) ∧
    (∀ (s : Checker) (name : String) (args : Option (List Node)),
        (visit_Decl_step s name (.funcDecl args)).defined_vars = s.defined_vars) :=
  ⟨unused_mem_iff, fun _ _ _ => rfl⟩

/-- C4: when the AST cannot be built, the `except` branch of
`check_code` returns the single `ParseFailure` diagnostic and nothing
else — no `UndeclaredVariable`, `ArityMismatch` or `UnusedVariable`
is produced for that run. -/
theorem parse_failure_atomic (parse : String → Except String Node) (code e : String)
    (h : parse code = .error e) :
    check_code parse code = [Diag.parseFailure e] ∧
    ∀ d ∈ check_code parse code,
      d.isUndeclared = false ∧ d.isArity = false ∧ d.isUnused = false := by
  have hc : check_code parse code = [Diag.parseFailure e] := by
    simp [check_code, h]
  refine ⟨hc, fun d hd => ?_⟩
  rw [hc] at hd
  simp only [List.mem_singleton] at hd
  subst hd
  exact ⟨rfl, rfl, rfl⟩

/-- C4 witness: the theorem applied to a concrete failing parser. -/
theorem parse_failure_atomic_witness :
    check_code parseFail "void f( \x7b" = [Diag.parseFailure "before: \x7d"] ∧
    ∀ d ∈ check_code parseFail "void f( \x7b",
      d.isUndeclared = false ∧ d.isArity = false ∧ d.isUnused = false :=
  parse_failure_atomic parseFail "void f( \x7b" "before: \x7d" rfl

/-- C5 (counterexample): `clang_analysis` has no exception handling in
`analyze_new.py` and `analyze_code` does not guard the call, so when
the clang invocation cannot run the exception propagates: the run does
not complete, and no `ExternalToolUnavailable` note exists anywhere in
the code — contradicting the claim that the run completes with such a
note in the report. -/
theorem external_failure_crashes_run :
    analyze_code pre0 parse0 extFail "t.c" =
      .crashed [Diag.unused "x"] "libclang load failed" ∧
    (analyze_code pre0 parse0 extFail "t.c").isCompleted = false :=
  ⟨rfl, rfl⟩

/-- C5 (amended): when the external toolchain cannot be invoked, the
external pass contributes zero diagnostics (never fabricated ones),
but the run does not complete: the exception propagates out of
`analyze_code` after the internal pass, the lines already printed are
exactly the internal-pass diagnostics, and no `ExternalToolUnavailable`
note is produced. -/
theorem external_failure_aborts (pre : String → Option String)
    (parse : String → Except String Node) (ext : String → Except String (List String))
    (f code e : String) (hp : pre f = some code) (he : ext f = .error e) :
    analyze_code pre parse ext f = .crashed (check_code parse code) e ∧
    (analyze_code pre parse ext f).isCompleted = false ∧
    report (analyze_code pre parse ext f) = (check_code parse code).map Diag.render := by
  simp [analyze_code, hp, he, report, RunOutcome.isCompleted]

/-- C5 witness: the amended theorem at a concrete failing clang
invocation. -/
theorem external_failure_aborts_witness :
    analyze_code pre0 parse0 extFail "t.c" =
      .crashed (check_code parse0 "int x;") "libclang load failed" ∧
    (analyze_code pre0 parse0 extFail "t.c").isCompleted = false ∧
    report (analyze_code pre0 parse0 extFail "t.c") =
      (check_code parse0 "int x;").map Diag.render :=
  external_failure_aborts pre0 parse0 extFail "t.c" "int x;" "libclang load failed" rfl rfl

/-- C6: when `preprocess_code` fails (returns `None`), `analyze_code`
returns before either pass runs: whatever the parser and the clang
collaborator would do, the outcome is `preprocessingFailed` and the
report holds no diagnostics. -/
theorem preprocessing_failure_short_circuits (pre : String → Option String)
    (f : String) (h : pre f = none) :
    ∀ (parse : String → Except String Node) (ext : String → Except String (List String)),
      analyze_code pre parse ext f = .preprocessingFailed ∧
      report (analyze_code pre parse ext f) = [] := by
  intro parse ext
  constructor
  · simp [analyze_code, h]
  · simp [analyze_code, h, report]

/-- C6 witness: the theorem at a concrete failing preprocessor. -/
theorem preprocessing_failure_short_circuits_witness :
    analyze_code preFail parse0 extOk "t.c" = .preprocessingFailed ∧
    report (analyze_code preFail parse0 extOk "t.c") = [] :=
  preprocessing_failure_short_circuits preFail "t.c" rfl parse0 extOk

/-- C7: a call whose callee `ID` resolves in `function_signatures`
contributes, at the call node itself, exactly one `ArityMismatch`
error when the supplied argument count differs from the stored
parameter count, and none when they agree (the remainder `rest` comes
from visiting the callee and argument children); on scenario B the
whole run contains exactly one `ArityMismatch`, for `f` called with 2
arguments (expected 1), rendered with exactly the code's message
string. -/
theorem arity_mismatch_exact :
    (∀ (s : Checker) (fname : String) (args : Option (List Node)) (expected : Nat),
        dictGet? s.function_signatures fname = some expected →
        ∃ rest, (visit s (.funcCall (.id fname) args)).errors =
          s.errors ++
            (if actualArgs args = expected then []
             else [Diag.arity fname (actualArgs args) expected]) ++ rest) ∧
    (runChecker progB).filter Diag.isArity = [Diag.arity "f" 2 1] ∧
    (Diag.arity "f" 2 1).render =
      "Error: Function \x27f\x27 called with 2 arguments (expected 1)." := by
  refine ⟨?_, rfl, rfl⟩
  intro s fname args expected hg
  simp only [visit]
  obtain ⟨t1, e1, -⟩ := errExtends_ID_step (visit_FuncCall_step s (.id fname) args) fname
  obtain ⟨t2, e2, -⟩ :=
    visitOptList_errExtends args (visit_ID_step (visit_FuncCall_step s (.id fname) args) fname)
  refine ⟨t1 ++ t2, ?_⟩
  rw [e2, e1]
  by_cases h : actualArgs args = expected
  · simp [visit_FuncCall_step, hg, h]
  · simp [visit_FuncCall_step, hg, h]

/-- C7 witness: the per-call statement instantiated at a state that
stores `f ↦ 1` and a two-argument call. -/
theorem arity_mismatch_exact_witness :
    ∃ rest, (visit ⟨[], [("f", 1)], []⟩
        (.funcCall (.id "f") (some [.constant, .constant]))).errors =
      ([] : List Diag) ++
        (if actualArgs (some [.constant, .constant]) = 1 then []
         else [Diag.arity "f" (actualArgs (some [.constant, .constant])) 1]) ++ rest :=
  arity_mismatch_exact.1 ⟨[], [("f", 1)], []⟩ "f" (some [.constant, .constant]) 1 rfl

/-- C8 (counterexample): the code's merge logic appends the external
list after the internal list without inspecting any location, so with
an internal diagnostic located at line 5 and an external one at line
1 the output is not ordered by the spec's location-primary key. -/
theorem merge_not_location_ordered :
    mergeReports [intLoc5] [extLoc1] = [intLoc5, extLoc1] ∧
    ¬ specOrderedReport (mergeReports [intLoc5] [extLoc1]) := by
  refine ⟨rfl, fun hord => ?_⟩
  have hR : specKeyLe intLoc5 extLoc1 := by
    have h2 : specOrderedReport [intLoc5, extLoc1] := hord
    simpa [specOrderedReport] using h2
  rcases hR with hlt | ⟨-, hR⟩
  · exact absurd hlt (lt_irrefl _)
  · rcases hR with h2 | ⟨h2, -⟩ <;> simp [intLoc5, extLoc1] at h2

/-- C8 (amended): the final report is the internal-pass diagnostics
followed by the external-pass diagnostics, each kept in its own
insertion order; no location-based reordering (and no deduplication)
occurs, and — the merge being a pure function of the two lists —
re-running it on the same inputs yields the identical output. -/
theorem report_is_ordered_concat (pre : String → Option String)
    (parse : String → Except String Node) (ext : String → Except String (List String))
    (f code : String) (ds : List String) (hp : pre f = some code) (he : ext f = .ok ds) :
    report (analyze_code pre parse ext f) =
      mergeReports ((check_code parse code).map Diag.render) ds ∧
    mergeReports ((check_code parse code).map Diag.render) ds =
      ((check_code parse code).map Diag.render) ++ ds := by
  constructor
  · simp [analyze_code, hp, he, report, mergeReports]
  · rfl

/-- C8 witness: the amended theorem at a concrete run. -/
theorem report_is_ordered_concat_witness :
    report (analyze_code pre0 parse0 extOk "t.c") =
      mergeReports ((check_code parse0 "int x;").map Diag.render)
        ["a.c:1:1: UNDEFINED_VARIABLE"] ∧
    mergeReports ((check_code parse0 "int x;").map Diag.render)
        ["a.c:1:1: UNDEFINED_VARIABLE"] =
      ((check_code parse0 "int x;").map Diag.render) ++ ["a.c:1:1: UNDEFINED_VARIABLE"] :=
  report_is_ordered_concat pre0 parse0 extOk "t.c" "int x;"
    ["a.c:1:1: UNDEFINED_VARIABLE"] rfl rfl

/-- C9: revisiting a plain variable `Decl` overwrites the dict entry
and resets the used flag to `False`, whatever state it was in; hence
for any program in which `x` is declared, referenced, then declared
again, with no `ID` node for `x` after the second declaration, the run
reports `x` as `UnusedVariable` despite the earlier reference. -/
theorem redeclaration_forgets_use :
    (∀ (s : Checker) (x : String),
        dictGet? (visit s (.decl x .typeDecl none)).defined_vars x = some false) ∧
    (∀ (pre mid post : List Node) (x : String), mentionsIDList x post = false →
        Diag.unused x ∈ runChecker (.fileAST
          (pre ++ [.decl x .typeDecl none] ++ mid ++
            [.id x, .decl x .typeDecl none] ++ post))) := by
  refine ⟨redeclaration_resets, fun pre mid post x h => ?_⟩
  rw [unused_mem_iff]
  have hv : ∀ l, visit initChecker (.fileAST l) = visitList initChecker l := by
    intro l
    simp [visit]
  rw [hv]
  rw [visitList_append, visitList_append]
  apply mem_of_dictGet?
  apply visitList_keepsFalse post _ h
  simp only [visitList]
  exact redeclaration_resets _ x

/-- C9 witness: the theorem at the smallest such program. -/
theorem redeclaration_forgets_use_witness :
    Diag.unused "x" ∈ runChecker (.fileAST
      ([] ++ [.decl "x" .typeDecl none] ++ [] ++
        [.id "x", .decl "x" .typeDecl none] ++ [])) :=
  redeclaration_forgets_use.2 [] [] [] "x" rfl

/-- C10: for any successfully parsed source the internal diagnostic
list splits into the traversal-time errors (all `UndeclaredVariable`
or `ArityMismatch`, none an `UnusedVariable`) followed by the
`check_unused_vars` warnings (all `UnusedVariable`): every warning
appears after every error, whatever the source locations involved. -/
theorem warnings_trail_errors (parse : String → Except String Node) (code : String)
    (ast : Node) (h : parse code = .ok ast) :
    ∃ es ws, check_code parse code = es ++ ws ∧
      (∀ d ∈ es, d.isUndeclared = true ∨ d.isArity = true) ∧
      (∀ d ∈ es, d.isUnused = false) ∧
      (∀ d ∈ ws, d.isUnused = true) := by
  obtain ⟨t, et, kt⟩ := visit_errExtends ast initChecker
  refine ⟨t,
    ((visit initChecker ast).defined_vars.filter (fun p => !p.2)).map (fun p => .unused p.1),
    ?_, kt, fun d hd => ?_, fun d hd => ?_⟩
  · rw [show check_code parse code = runChecker ast from by simp [check_code, h]]
    unfold runChecker
    rw [check_unused_vars_errors, et]
    simp [initChecker]
  · rcases kt d hd with hk | hk <;> cases d <;>
      simp_all [Diag.isUndeclared, Diag.isArity, Diag.isUnused]
  · rcases List.mem_map.1 hd with ⟨p, hp, rfl⟩
    rfl

/-- C10 witness: the theorem at the scenario-B program, whose output
mixes both error kinds and a warning. -/
theorem warnings_trail_errors_witness :
    ∃ es ws, check_code parseB "b.c" = es ++ ws ∧
      (∀ d ∈ es, d.isUndeclared = true ∨ d.isArity = true) ∧
      (∀ d ∈ es, d.isUnused = false) ∧
      (∀ d ∈ ws, d.isUnused = true) :=
  warnings_trail_errors parseB "b.c" progB rfl

end Analyzer
